import Mathlib

/-
Verification of the HOCS core architecture host-side components.

Shallow embedding of:
  * the zero-copy DMA buffer allocator
    (src/memory/hocs_dma_allocator.cpp, class HOCSMremoryManager);
  * the SCRAM safety controller
    (hocs_scram_controller Verilog module);
  * the PCIe character-device driver's register accesses
    (src/kernel_driver/hocs_pci.c);
  * the job-packet codec, modelled from the interface specification
    (src/docs/INTERFACE_SPEC.md) since no codec implementation exists
    in the repository sources.

Machine integers are embedded as `Nat` with explicit reduction modulo
`2 ^ 64` (size_t) or `2 ^ 32` (u32) at every point where the C/Verilog
source performs wrapping arithmetic.
-/

set_option autoImplicit false
set_option maxRecDepth 4000

/-! ## Buffer pool: src/memory/hocs_dma_allocator.cpp -/

/-- `size_t` modulus: the allocator does all offset arithmetic in 64-bit
unsigned integers. -/
def SIZE_T_MOD : Nat := 2 ^ 64

/-- `ALIGN_UP(x, 64) = ((x + 64 - 1) & ~(64 - 1))` computed in `size_t`:
the addition wraps modulo `2 ^ 64`, and masking with `~63` clears the six
low bits, i.e. rounds down to a multiple of 64. -/
def alignUp64 (x : Nat) : Nat := ((x + 63) % SIZE_T_MOD) / 64 * 64

/-- The allocator state visible to `allocate_tensor_buffer`: the fixed
`total_capacity` and the atomically advanced `current_offset`
(`std::atomic<size_t>`). -/
structure PoolState where
  total_capacity : Nat
  current_offset : Nat
deriving DecidableEq, Repr

/-- `HOCSMremoryManager::allocate_tensor_buffer`: round the size up to a
64-byte multiple, fetch-and-add it onto `current_offset` (wrapping like
`size_t`), and fail (returning `nullptr`, with no rollback of the offset)
when `old_offset + aligned_size > total_capacity`; otherwise the returned
pointer is the pool base plus `old_offset`, embedded here as the offset
itself. -/
def allocate_tensor_buffer (s : PoolState) (size : Nat) : PoolState × Option Nat :=
  let aligned_size := alignUp64 size
  let old_offset := s.current_offset
  let new_offset := (old_offset + aligned_size) % SIZE_T_MOD
  if s.total_capacity < (old_offset + aligned_size) % SIZE_T_MOD then
    (⟨s.total_capacity, new_offset⟩, none)
  else
    (⟨s.total_capacity, new_offset⟩, some old_offset)

/-- `HOCSMremoryManager::fast_reset`: store 0 into `current_offset`. -/
def fast_reset (s : PoolState) : PoolState :=
  ⟨s.total_capacity, 0⟩

/-- Run a sequence of `allocate_tensor_buffer` calls, collecting each
call's result in order. -/
def allocList (s : PoolState) : List Nat → PoolState × List (Option Nat)
  | [] => (s, [])
  | size :: rest =>
    let step := allocate_tensor_buffer s size
    let tail := allocList step.1 rest
    (tail.1, step.2 :: tail.2)

/-- Offset handed out to the `i`-th allocation in a fully successful run:
the sum of the aligned sizes of the requests before it. -/
def offsetAt : List Nat → Nat → Nat
  | _, 0 => 0
  | [], _ + 1 => 0
  | size :: rest, i + 1 => alignUp64 size + offsetAt rest i

/-! ## SCRAM safety controller: hocs_scram_controller (Verilog) -/

/-- 32-bit modulus for `watchdog_counter`. -/
def U32_MOD : Nat := 2 ^ 32

/-- The four FSM states (`STATE_OK`, `STATE_WARNING`, `STATE_SCRAM`,
`STATE_DEAD`).  `STATE_WARNING` has no branch in the source's `case`
statement, so nothing is assigned while in it. -/
inductive ScramFsm where
  | ok
  | warning
  | scram
  | dead
deriving DecidableEq, Repr

/-- Registers of the `hocs_scram_controller` module. -/
structure ScramState where
  watchdog_counter : Nat
  heartbeat_prev : Bool
  current_state : ScramFsm
  power_cut_trigger : Bool
  system_locked : Bool
  status_leds : Nat
deriving DecidableEq, Repr

/-- Reset values (`!rst_n` branches of both always blocks). -/
def scramReset : ScramState :=
  ⟨0, false, ScramFsm.ok, false, false, 1⟩

/-- The watchdog always block: on a heartbeat edge the counter resets to 0
and the sampled value is latched; otherwise the counter increments (in
32-bit arithmetic) while strictly below `WATCHDOG_LIMIT`. -/
def watchdogStep (WATCHDOG_LIMIT : Nat) (s : ScramState) (heartbeat_signal : Bool) :
    Nat × Bool :=
  if heartbeat_signal ≠ s.heartbeat_prev then
    (0, heartbeat_signal)
  else if s.watchdog_counter < WATCHDOG_LIMIT then
    ((s.watchdog_counter + 1) % U32_MOD, s.heartbeat_prev)
  else
    (s.watchdog_counter, s.heartbeat_prev)

/-- The FSM always block. Both always blocks trigger on the same clock
edge with nonblocking assignments, so this block reads the *pre-tick*
`watchdog_counter`.  Returns (state, power_cut_trigger, system_locked,
status_leds). -/
def fsmStep (TEMP_CRITICAL_LIMIT WATCHDOG_LIMIT : Nat) (s : ScramState)
    (temp_sensor_raw : Nat) : ScramFsm × Bool × Bool × Nat :=
  match s.current_state with
  | ScramFsm.ok =>
      (if TEMP_CRITICAL_LIMIT < temp_sensor_raw then ScramFsm.scram
       else if WATCHDOG_LIMIT ≤ s.watchdog_counter then ScramFsm.scram
       else ScramFsm.ok,
       s.power_cut_trigger, s.system_locked, 1)
  | ScramFsm.warning =>
      (ScramFsm.warning, s.power_cut_trigger, s.system_locked, s.status_leds)
  | ScramFsm.scram =>
      (ScramFsm.dead, true, true, 15)
  | ScramFsm.dead =>
      (ScramFsm.dead, true, s.system_locked, 15 ^^^ s.status_leds)

/-- One clock tick of `hocs_scram_controller`: both always blocks sample
the old state and update their registers simultaneously. -/
def scramStep (TEMP_CRITICAL_LIMIT WATCHDOG_LIMIT : Nat) (s : ScramState)
    (heartbeat_signal : Bool) (temp_sensor_raw : Nat) : ScramState :=
  let w := watchdogStep WATCHDOG_LIMIT s heartbeat_signal
  let f := fsmStep TEMP_CRITICAL_LIMIT WATCHDOG_LIMIT s temp_sensor_raw
  ⟨w.1, w.2, f.1, f.2.1, f.2.2.1, f.2.2.2⟩

/-- Run the controller for a list of per-tick inputs
(heartbeat_signal, temp_sensor_raw). -/
def scramRun (TEMP_CRITICAL_LIMIT WATCHDOG_LIMIT : Nat) (s : ScramState) :
    List (Bool × Nat) → ScramState
  | [] => s
  | input :: rest =>
      scramRun TEMP_CRITICAL_LIMIT WATCHDOG_LIMIT
        (scramStep TEMP_CRITICAL_LIMIT WATCHDOG_LIMIT s input.1 input.2) rest

/-- Run the controller from reset for `n` ticks with constant inputs. -/
def scramRunConst (TEMP_CRITICAL_LIMIT WATCHDOG_LIMIT : Nat)
    (heartbeat_signal : Bool) (temp_sensor_raw : Nat) : Nat → ScramState
  | 0 => scramReset
  | n + 1 =>
      scramStep TEMP_CRITICAL_LIMIT WATCHDOG_LIMIT
        (scramRunConst TEMP_CRITICAL_LIMIT WATCHDOG_LIMIT heartbeat_signal
          temp_sensor_raw n)
        heartbeat_signal temp_sensor_raw

/-! ## Kernel driver register accesses: src/kernel_driver/hocs_pci.c -/

/-- Register offsets as defined in the driver source. -/
def REG_CONTROL : Nat := 0x00

/-- `REG_STATUS` offset (0x04). -/
def REG_STATUS : Nat := 0x04

/-- `REG_IRQ_ACK` offset as the driver defines it (0x08). -/
def REG_IRQ_ACK : Nat := 0x08

/-- Register-map offsets fixed by the hardware contract
(src/docs/INTERFACE_SPEC.md §3): ERROR lives at 0x08, VERSION at 0x0C,
TEMP at 0x10. -/
def REG_ERROR : Nat := 0x08

/-- VERSION register offset per the hardware contract (read-only). -/
def REG_VERSION : Nat := 0x0C

/-- TEMP register offset per the hardware contract (read-only). -/
def REG_TEMP : Nat := 0x10

/-- The registers the hardware contract marks read-only
(src/docs/INTERFACE_SPEC.md §3: STATUS, ERROR, VERSION, TEMP are `RO`;
only CONTROL is `R/W`). -/
def readOnlyRegs : List Nat := [REG_STATUS, REG_ERROR, REG_VERSION, REG_TEMP]

/-- A single MMIO access performed by the driver (`ioread32` /
`iowrite32` at `bar0_base + offset`). -/
inductive RegOp where
  | readReg (offset : Nat)
  | writeReg (offset : Nat) (value : Nat)
deriving DecidableEq, Repr

/-- Register accesses of `hocs_read`: one `ioread32` of STATUS, no
writes. -/
def hocs_read_ops : List RegOp := [RegOp.readReg REG_STATUS]

/-- The observable effect of the `hocs_write` file operation: it calls
`copy_from_user(&cmd_reg, buf, len)` — copying the *caller-supplied*
`len` bytes into the 4-byte local `u32 cmd_reg` — then issues
`iowrite32(cmd_reg, bar0_base + REG_CONTROL)` and returns `len`. -/
structure WriteEffect where
  bytes_copied : Nat
  dest_capacity : Nat
  ret : Nat
  reg_ops : List RegOp
deriving DecidableEq, Repr

/-- `hocs_write` on a request of length `len` carrying command word
`cmd` (the successful `copy_from_user` path). -/
def hocs_write_model (len cmd : Nat) : WriteEffect :=
  ⟨len, 4, len, [RegOp.writeReg REG_CONTROL cmd]⟩

/-- Register accesses of `hocs_irq_handler`: read `REG_IRQ_ACK` (offset
0x08); if bit 0 of the value read is set, write 0x01 back to
`REG_IRQ_ACK` to clear the interrupt. -/
def hocs_irq_handler_ops (irq_status : Nat) : List RegOp :=
  RegOp.readReg REG_IRQ_ACK ::
    (if irq_status % 2 = 1 then [RegOp.writeReg REG_IRQ_ACK 0x01] else [])

/-- Outcome of the fallible setup calls inside `hocs_driver_init`. -/
structure InitEnv where
  alloc_chrdev_ok : Bool
  class_create_ok : Bool
  device_create_ok : Bool
  cdev_add_ok : Bool
deriving DecidableEq, Repr

/-- `hocs_driver_init`: allocates a chardev region, creates the class,
the device file and the cdev, returning −1 on the first failure and 0 on
success.  It performs no MMIO at all (the source notes that `ioremap`
would happen in a probe function). -/
def hocs_driver_init (e : InitEnv) : Int :=
  if !e.alloc_chrdev_ok then -1
  else if !e.class_create_ok then -1
  else if !e.device_create_ok then -1
  else if !e.cdev_add_ok then -1
  else 0

/-- Register accesses performed by `hocs_driver_init`: none, on every
path. -/
def hocs_driver_init_regops (_e : InitEnv) : List RegOp := []

/-! ## Job-packet codec

Modelled from the spec: the repository contains no codec implementation,
only the wire-format description in src/docs/INTERFACE_SPEC.md §2 and
spec §4.3/§6 (magic, opcode, payload_len, tile_id, payload, crc32, all
little-endian; decode checks magic, then truncation, then the CRC).
Bytes are `Nat` values below 256. -/

/-- Modelled from the spec: the fixed magic constant.  The ICD writes it
as `0xH0C5`, which is not a valid hexadecimal literal; the concrete
value is immaterial, only that encoder and decoder agree on it. -/
def MAGIC_VAL : Nat := 0x48304335

/-- Modelled from the spec: maximum payload size, 4 MiB. -/
def MAX_PAYLOAD : Nat := 4 * 1024 * 1024

/-- Little-endian byte serialisation of a `u32`. -/
def le32 (n : Nat) : List Nat :=
  [n % 256, n / 256 % 256, n / 65536 % 256, n / 16777216 % 256]

/-- Read a little-endian `u32` from the first four bytes of a list
(missing bytes read as 0). -/
def readLE32 (bs : List Nat) : Nat :=
  bs.getD 0 0 + 256 * bs.getD 1 0 + 65536 * bs.getD 2 0
    + 16777216 * bs.getD 3 0

/-- One shift-and-conditionally-xor round of reflected CRC-32
(polynomial 0xEDB88320). -/
def crc32_round (c : Nat) : Nat :=
  if c % 2 = 1 then (c / 2) ^^^ 0xEDB88320 else c / 2

/-- `n` CRC rounds. -/
def crc32_rounds : Nat → Nat → Nat
  | 0, c => c
  | n + 1, c => crc32_rounds n (crc32_round c)

/-- Modelled from the spec: standard CRC-32 over a byte sequence, used
as the packet integrity footer. -/
def crc32 (data : List Nat) : Nat :=
  (data.foldl (fun c b => crc32_rounds 8 (c ^^^ b % 256)) 0xFFFFFFFF)
    ^^^ 0xFFFFFFFF

/-- Modelled from the spec: `encode(opcode, tile_id, payload)` lays out
magic, opcode, payload_len, tile_id (each little-endian u32), the
payload bytes, then CRC-32 over header+payload as the footer. -/
def encode (opcode tile_id : Nat) (payload : List Nat) : List Nat :=
  le32 MAGIC_VAL ++ le32 opcode ++ le32 payload.length ++ le32 tile_id
    ++ payload
    ++ le32 (crc32 (le32 MAGIC_VAL ++ le32 opcode ++ le32 payload.length
        ++ le32 tile_id ++ payload))

/-- Decode outcomes per the spec's error taxonomy. -/
inductive DecodeResult where
  | ok (opcode tile_id : Nat) (payload : List Nat)
  | magicMismatch
  | truncated
  | checksumError
deriving DecidableEq, Repr

/-- Modelled from the spec: `decode` validates the magic first, then
checks `payload_len` against the remaining length (`truncated` if the
buffer cannot hold header, payload and footer), then recomputes CRC-32
over header+payload and compares it with the footer. -/
def decode (bs : List Nat) : DecodeResult :=
  if bs.length < 16 then DecodeResult.truncated
  else if readLE32 bs ≠ MAGIC_VAL then DecodeResult.magicMismatch
  else
    let payload_len := readLE32 (bs.drop 8)
    if bs.length < 16 + payload_len + 4 then DecodeResult.truncated
    else if crc32 (bs.take (16 + payload_len)) ≠ readLE32 (bs.drop (16 + payload_len)) then
      DecodeResult.checksumError
    else
      DecodeResult.ok (readLE32 (bs.drop 4)) (readLE32 (bs.drop 12))
        ((bs.drop 16).take payload_len)

example : decode (encode 1 7 [0, 0]) = DecodeResult.ok 1 7 [0, 0] := by decide

/-! ## Buffer-pool lemmas -/

theorem alignUp64_lt (x : Nat) : alignUp64 x < SIZE_T_MOD := by
  have h : (x + 63) % SIZE_T_MOD < SIZE_T_MOD := Nat.mod_lt _ (by simp [SIZE_T_MOD])
  calc alignUp64 x ≤ (x + 63) % SIZE_T_MOD := by
        simpa [alignUp64] using Nat.div_mul_le_self ((x + 63) % SIZE_T_MOD) 64
    _ < SIZE_T_MOD := h

theorem alignUp64_mod64 (x : Nat) : alignUp64 x % 64 = 0 := by
  simp [alignUp64, Nat.mul_mod_left]

theorem alignUp64_pos (x : Nat) (hx : 0 < x) (hnw : x + 63 < SIZE_T_MOD) :
    64 ≤ alignUp64 x := by
  have h : (x + 63) % SIZE_T_MOD = x + 63 := Nat.mod_eq_of_lt hnw
  simp only [alignUp64, h]
  omega

theorem offsetAt_nil (i : Nat) : offsetAt [] i = 0 := by
  cases i <;> rfl

theorem offsetAt_mod64 (sizes : List Nat) (i : Nat) : offsetAt sizes i % 64 = 0 := by
  induction sizes generalizing i with
  | nil => simp [offsetAt_nil]
  | cons size rest ih =>
      cases i with
      | zero => rfl
      | succ i =>
          have h1 := alignUp64_mod64 size
          have h2 := ih i
          simp only [offsetAt]
          omega

theorem offsetAt_succ_getD (sizes : List Nat) (i : Nat) (h : i < sizes.length) :
    offsetAt sizes (i + 1) = offsetAt sizes i + alignUp64 (sizes.getD i 0) := by
  induction sizes generalizing i with
  | nil => simp at h
  | cons size rest ih =>
      cases i with
      | zero => simp [offsetAt]
      | succ i =>
          simp only [List.length_cons, Nat.add_lt_add_iff_right] at h
          simp only [offsetAt, List.getD_cons_succ, ih i h]
          omega

theorem offsetAt_mono (sizes : List Nat) (i j : Nat) (h : i ≤ j) :
    offsetAt sizes i ≤ offsetAt sizes j := by
  induction sizes generalizing i j with
  | nil => simp [offsetAt_nil]
  | cons size rest ih =>
      cases i with
      | zero => cases j <;> simp [offsetAt]
      | succ i =>
          cases j with
          | zero => omega
          | succ j =>
              have := ih i j (by omega)
              simp only [offsetAt]
              omega

theorem allocList_success (cap : Nat) (sizes : List Nat) (base : Nat)
    (hcap : cap < SIZE_T_MOD)
    (hsum : base + (sizes.map alignUp64).sum ≤ cap) :
    allocList ⟨cap, base⟩ sizes
      = (⟨cap, base + (sizes.map alignUp64).sum⟩,
         (List.range sizes.length).map (fun i => some (base + offsetAt sizes i))) := by
  induction sizes generalizing base with
  | nil => simp [allocList]
  | cons size rest ih =>
      have hsum' : base + alignUp64 size + (rest.map alignUp64).sum ≤ cap := by
        simpa [Nat.add_assoc] using hsum
      have hle : base + alignUp64 size + (rest.map alignUp64).sum < SIZE_T_MOD :=
        lt_of_le_of_lt hsum' hcap
      have hmod : (base + alignUp64 size) % SIZE_T_MOD = base + alignUp64 size :=
        Nat.mod_eq_of_lt (by omega)
      have hstep :
          allocate_tensor_buffer ⟨cap, base⟩ size
            = (⟨cap, base + alignUp64 size⟩, some base) := by
        simp only [allocate_tensor_buffer, hmod]
        rw [if_neg (by omega : ¬ cap < base + alignUp64 size)]
      simp only [allocList, hstep, ih (base + alignUp64 size) hsum']
      refine Prod.ext (by simp [Nat.add_assoc]) ?_
      simp only [List.length_cons, List.range_succ_eq_map, List.map_cons, List.map_map,
        List.cons.injEq]
      refine ⟨by simp [offsetAt], ?_⟩
      apply List.map_congr_left
      intro i _
      simp [offsetAt, Function.comp, Nat.add_assoc]

/-- C1: starting from offset 0, if the 64-byte-aligned request sizes sum
to at most the pool capacity, every `allocate_tensor_buffer` call
succeeds and returns offset `offsetAt sizes i` (the sum of the aligned
sizes before it), every returned offset is 64-byte aligned, and the byte
ranges `[offset, offset + aligned_size)` of distinct calls are pairwise
disjoint (each earlier range ends at or before each later range
begins). -/
theorem c1_alloc_success_disjoint_aligned (cap : Nat) (sizes : List Nat)
    (hcap : cap < SIZE_T_MOD)
    (hsum : (sizes.map alignUp64).sum ≤ cap) :
    (allocList ⟨cap, 0⟩ sizes).2
        = (List.range sizes.length).map (fun i => some (offsetAt sizes i))
      ∧ (∀ i, offsetAt sizes i % 64 = 0)
      ∧ (∀ i j, i < j → j < sizes.length →
          offsetAt sizes i + alignUp64 (sizes.getD i 0) ≤ offsetAt sizes j) := by
  refine ⟨?_, fun i => offsetAt_mod64 sizes i, ?_⟩
  · have h := allocList_success cap sizes 0 hcap (by simpa using hsum)
    simp [h]
  · intro i j hij hj
    have hi : i < sizes.length := lt_trans hij hj
    calc offsetAt sizes i + alignUp64 (sizes.getD i 0)
        = offsetAt sizes (i + 1) := (offsetAt_succ_getD sizes i hi).symm
      _ ≤ offsetAt sizes j := offsetAt_mono sizes (i + 1) j hij

theorem c1_witness :
    (([100, 64].map alignUp64).sum ≤ 4194304)
    ∧ ((allocList ⟨4194304, 0⟩ [100, 64]).2
          = (List.range ([100, 64] : List Nat).length).map
              (fun i => some (offsetAt [100, 64] i))
        ∧ (∀ i, offsetAt [100, 64] i % 64 = 0)
        ∧ (∀ i j, i < j → j < ([100, 64] : List Nat).length →
            offsetAt [100, 64] i + alignUp64 (([100, 64] : List Nat).getD i 0)
              ≤ offsetAt [100, 64] j)) :=
  ⟨by decide,
   c1_alloc_success_disjoint_aligned 4194304 [100, 64] (by decide) (by decide)⟩

/-- The pool offset after a run of allocations is the initial offset plus
the sum of the aligned sizes, whether or not individual calls failed,
provided the running offset never wraps modulo `2 ^ 64`. -/
theorem allocList_offset (cap : Nat) (sizes : List Nat) (base : Nat)
    (hnw : base + (sizes.map alignUp64).sum < SIZE_T_MOD) :
    (allocList ⟨cap, base⟩ sizes).1
      = ⟨cap, base + (sizes.map alignUp64).sum⟩ := by
  induction sizes generalizing base with
  | nil => simp [allocList]
  | cons size rest ih =>
      have hnw' : base + alignUp64 size + (rest.map alignUp64).sum < SIZE_T_MOD := by
        simpa [Nat.add_assoc] using hnw
      have hmod : (base + alignUp64 size) % SIZE_T_MOD = base + alignUp64 size :=
        Nat.mod_eq_of_lt (by omega)
      have hstate : (allocate_tensor_buffer ⟨cap, base⟩ size).1
          = ⟨cap, base + alignUp64 size⟩ := by
        simp only [allocate_tensor_buffer, hmod]
        split <;> rfl
      simp only [allocList, hstate, ih (base + alignUp64 size) hnw']
      simp [Nat.add_assoc]

/-- C5 (amended): after a sequence of allocations whose aligned sizes
sum to at least the capacity, the next allocate call with positive
requested size returns the null handle; and — absent `size_t`
wraparound at the call — no allocate call ever returns an offset whose
byte range `[offset, offset + aligned_size)` extends past the pool
capacity. -/
theorem c5_oom_and_in_bounds (cap size : Nat) (sizes : List Nat)
    (hexh : cap ≤ (sizes.map alignUp64).sum)
    (hnw : (sizes.map alignUp64).sum + alignUp64 size < SIZE_T_MOD)
    (hpos : 0 < size) (hszw : size + 63 < SIZE_T_MOD) :
    (allocate_tensor_buffer (allocList ⟨cap, 0⟩ sizes).1 size).2 = none
    ∧ ∀ (t : PoolState) (sz o : Nat),
        t.current_offset + alignUp64 sz < SIZE_T_MOD →
        (allocate_tensor_buffer t sz).2 = some o →
        o + alignUp64 sz ≤ t.total_capacity := by
  constructor
  · have hS : (sizes.map alignUp64).sum < SIZE_T_MOD := by omega
    have hstate := allocList_offset cap sizes 0 (by omega)
    rw [hstate]
    have ha : 64 ≤ alignUp64 size := alignUp64_pos size hpos hszw
    have hmod : (0 + (sizes.map alignUp64).sum + alignUp64 size) % SIZE_T_MOD
        = (sizes.map alignUp64).sum + alignUp64 size := by
      rw [Nat.zero_add]; exact Nat.mod_eq_of_lt hnw
    simp only [allocate_tensor_buffer, Nat.zero_add] at *
    rw [if_pos (by omega)]
  · intro t sz o hnw' hsome
    have hmod : (t.current_offset + alignUp64 sz) % SIZE_T_MOD
        = t.current_offset + alignUp64 sz := Nat.mod_eq_of_lt hnw'
    simp only [allocate_tensor_buffer, hmod] at hsome
    by_cases h : t.total_capacity < t.current_offset + alignUp64 sz
    · rw [if_pos h] at hsome; cases hsome
    · rw [if_neg h] at hsome
      have : o = t.current_offset := by cases hsome; rfl
      omega

theorem c5_witness :
    (128 ≤ (([100] : List Nat).map alignUp64).sum)
    ∧ ((([100] : List Nat).map alignUp64).sum + alignUp64 1 < SIZE_T_MOD)
    ∧ (0 < 1) ∧ (1 + 63 < SIZE_T_MOD)
    ∧ ((allocate_tensor_buffer (allocList ⟨128, 0⟩ [100]).1 1).2 = none
        ∧ ∀ (t : PoolState) (sz o : Nat),
            t.current_offset + alignUp64 sz < SIZE_T_MOD →
            (allocate_tensor_buffer t sz).2 = some o →
            o + alignUp64 sz ≤ t.total_capacity) :=
  ⟨by decide, by decide, by decide, by decide,
   c5_oom_and_in_bounds 128 1 [100] (by decide) (by decide) (by decide) (by decide)⟩

/-- C5 counterexample to the claim as stated: on a 4 MiB pool, a failed
huge allocation advances the offset to `2 ^ 64 - 64`; the next 64-byte
allocation then wraps the `size_t` comparison and *succeeds*, returning
offset `2 ^ 64 - 64` whose byte range extends far past the pool
capacity. -/
theorem c5_counterexample :
    (allocate_tensor_buffer ⟨4194304, 0⟩ (SIZE_T_MOD - 64)).2 = none
    ∧ (allocate_tensor_buffer
          (allocate_tensor_buffer ⟨4194304, 0⟩ (SIZE_T_MOD - 64)).1 64).2
        = some (SIZE_T_MOD - 64)
    ∧ 4194304 < (SIZE_T_MOD - 64) + alignUp64 64 := by decide

/-- All allocations from a state whose offset already exceeds the
capacity fail, as long as the running offset does not wrap modulo
`2 ^ 64`. -/
theorem allocList_all_fail (sizes : List Nat) (s : PoolState)
    (hover : s.total_capacity < s.current_offset)
    (hnw : s.current_offset + (sizes.map alignUp64).sum < SIZE_T_MOD) :
    ∀ r ∈ (allocList s sizes).2, r = none := by
  induction sizes generalizing s with
  | nil => simp [allocList]
  | cons size rest ih =>
      have hnw' : s.current_offset + alignUp64 size + (rest.map alignUp64).sum
          < SIZE_T_MOD := by simpa [Nat.add_assoc] using hnw
      have hmod : (s.current_offset + alignUp64 size) % SIZE_T_MOD
          = s.current_offset + alignUp64 size := Nat.mod_eq_of_lt (by omega)
      have hstep : allocate_tensor_buffer s size
          = (⟨s.total_capacity, s.current_offset + alignUp64 size⟩, none) := by
        simp only [allocate_tensor_buffer, hmod]
        rw [if_pos (by omega)]
      intro r hr
      simp only [allocList, hstep, List.mem_cons] at hr
      rcases hr with h | h
      · exact h
      · exact ih ⟨s.total_capacity, s.current_offset + alignUp64 size⟩
          (by show s.total_capacity < s.current_offset + alignUp64 size; omega)
          (by simpa using hnw') r h

/-- C8 (amended): a failing allocate call still advances the shared
offset past the capacity with no rollback, so — provided the offset
arithmetic never wraps modulo `2 ^ 64` — every subsequent allocate call
of any size also fails, until `fast_reset` returns the offset to 0. -/
theorem c8_failure_sticky_until_reset (s : PoolState) (size : Nat) (sizes : List Nat)
    (hnw : s.current_offset + alignUp64 size < SIZE_T_MOD)
    (hfail : (allocate_tensor_buffer s size).2 = none)
    (hnw2 : s.current_offset + alignUp64 size + (sizes.map alignUp64).sum
        < SIZE_T_MOD) :
    s.total_capacity < (allocate_tensor_buffer s size).1.current_offset
    ∧ (∀ r ∈ (allocList (allocate_tensor_buffer s size).1 sizes).2, r = none)
    ∧ (fast_reset (allocList (allocate_tensor_buffer s size).1 sizes).1).current_offset
        = 0 := by
  have hmod : (s.current_offset + alignUp64 size) % SIZE_T_MOD
      = s.current_offset + alignUp64 size := Nat.mod_eq_of_lt hnw
  have hover : s.total_capacity < s.current_offset + alignUp64 size := by
    by_contra h
    simp only [allocate_tensor_buffer, hmod] at hfail
    rw [if_neg (by omega)] at hfail
    cases hfail
  have hstate : (allocate_tensor_buffer s size).1
      = ⟨s.total_capacity, s.current_offset + alignUp64 size⟩ := by
    simp only [allocate_tensor_buffer, hmod]
    split <;> rfl
  refine ⟨by rw [hstate]; exact hover, ?_, by simp [fast_reset]⟩
  rw [hstate]
  exact allocList_all_fail sizes _ hover (by simpa using hnw2)

theorem c8_witness :
    ((128 : Nat) + alignUp64 200 < SIZE_T_MOD)
    ∧ ((allocate_tensor_buffer ⟨128, 128⟩ 200).2 = none)
    ∧ ((128 : Nat) + alignUp64 200 + (([1] : List Nat).map alignUp64).sum < SIZE_T_MOD)
    ∧ ((128 : Nat) < (allocate_tensor_buffer ⟨128, 128⟩ 200).1.current_offset
        ∧ (∀ r ∈ (allocList (allocate_tensor_buffer ⟨128, 128⟩ 200).1 [1]).2, r = none)
        ∧ (fast_reset (allocList (allocate_tensor_buffer ⟨128, 128⟩ 200).1 [1]).1).current_offset
            = 0) :=
  ⟨by decide, by decide, by decide,
   c8_failure_sticky_until_reset ⟨128, 128⟩ 200 [1] (by decide) (by decide) (by decide)⟩

/-- C8 counterexample to the claim as stated: on a 4 MiB pool, an
allocate of `2 ^ 63` bytes fails for exceeding capacity, yet the next
allocate call — also of positive size `2 ^ 63`, with no intervening
`fast_reset` — succeeds, because the offset sum wraps modulo
`2 ^ 64`. -/
theorem c8_counterexample :
    (allocate_tensor_buffer ⟨4194304, 0⟩ (2 ^ 63)).2 = none
    ∧ (0 : Nat) < 2 ^ 63
    ∧ (allocate_tensor_buffer
          (allocate_tensor_buffer ⟨4194304, 0⟩ (2 ^ 63)).1 (2 ^ 63)).2
        = some (2 ^ 63) := by decide

/-! ## SCRAM controller lemmas -/

/-- A quiet tick in `OK`: heartbeat unchanged, counter strictly below the
limit, temperature at or below the critical limit — the counter
increments and the FSM stays in `OK`. -/
theorem scramStep_ok_quiet (TLIM WLIM c temp leds : Nat) (hp pc sl : Bool)
    (hc : c < WLIM) (hW : WLIM < U32_MOD) (htemp : temp ≤ TLIM) :
    scramStep TLIM WLIM ⟨c, hp, ScramFsm.ok, pc, sl, leds⟩ hp temp
      = ⟨c + 1, hp, ScramFsm.ok, pc, sl, 1⟩ := by
  have hmod : (c + 1) % U32_MOD = c + 1 := Nat.mod_eq_of_lt (by omega)
  simp [scramStep, watchdogStep, fsmStep, hc, hmod,
    Nat.not_lt.mpr htemp, Nat.not_le.mpr hc]

/-- Ticks in `DEAD` keep the state `DEAD` and the power-cut trigger
asserted, whatever the inputs. -/
theorem scramStep_dead (TLIM WLIM : Nat) (s : ScramState) (hb : Bool) (temp : Nat)
    (h : s.current_state = ScramFsm.dead) :
    (scramStep TLIM WLIM s hb temp).current_state = ScramFsm.dead
    ∧ (scramStep TLIM WLIM s hb temp).power_cut_trigger = true := by
  simp [scramStep, fsmStep, h]

/-- With a never-toggling heartbeat and cool temperature, the first
`WATCHDOG_LIMIT` ticks leave the controller in `OK` with
`watchdog_counter = n`. -/
theorem scramRunConst_ok_phase (TLIM WLIM temp : Nat)
    (hW : WLIM < U32_MOD) (htemp : temp ≤ TLIM) (n : Nat) (hn : n ≤ WLIM) :
    scramRunConst TLIM WLIM false temp n
      = ⟨n, false, ScramFsm.ok, false, false, 1⟩ := by
  induction n with
  | zero => rfl
  | succ n ih =>
      have hn' : n ≤ WLIM := by omega
      simp only [scramRunConst, ih hn']
      exact scramStep_ok_quiet TLIM WLIM n temp 1 false false false (by omega) hW htemp

/-- C2 (amended): with temperature at or below the critical limit and a
heartbeat that never toggles, the controller is still `OK` after
`WATCHDOG_LIMIT` ticks, enters `SCRAM` on tick `WATCHDOG_LIMIT + 1`
(with `power_cut_trigger` still deasserted on that tick), moves to
`DEAD` on the following tick — at which point `power_cut_trigger` is
asserted — and stays `DEAD` with `power_cut_trigger` asserted on every
later tick. -/
theorem c2_watchdog_timeout_scram_dead (TLIM WLIM temp : Nat)
    (hW : WLIM < U32_MOD) (htemp : temp ≤ TLIM) :
    (scramRunConst TLIM WLIM false temp WLIM).current_state = ScramFsm.ok
    ∧ (scramRunConst TLIM WLIM false temp (WLIM + 1)).current_state = ScramFsm.scram
    ∧ (scramRunConst TLIM WLIM false temp (WLIM + 2)).current_state = ScramFsm.dead
    ∧ ∀ k, (scramRunConst TLIM WLIM false temp (WLIM + 2 + k)).current_state
            = ScramFsm.dead
        ∧ (scramRunConst TLIM WLIM false temp (WLIM + 2 + k)).power_cut_trigger
            = true := by
  have h0 := scramRunConst_ok_phase TLIM WLIM temp hW htemp WLIM (le_refl WLIM)
  have h1 : scramRunConst TLIM WLIM false temp (WLIM + 1)
      = ⟨WLIM, false, ScramFsm.scram, false, false, 1⟩ := by
    rw [scramRunConst, h0]
    simp [scramStep, watchdogStep, fsmStep, Nat.not_lt.mpr htemp]
  have h2 : scramRunConst TLIM WLIM false temp (WLIM + 2)
      = ⟨WLIM, false, ScramFsm.dead, true, true, 15⟩ := by
    rw [show WLIM + 2 = (WLIM + 1) + 1 from rfl, scramRunConst, h1]
    simp [scramStep, watchdogStep, fsmStep]
  refine ⟨by rw [h0], by rw [h1], by rw [h2], ?_⟩
  intro k
  induction k with
  | zero => rw [h2]; exact ⟨rfl, rfl⟩
  | succ k ih =>
      rw [show WLIM + 2 + (k + 1) = (WLIM + 2 + k) + 1 from rfl, scramRunConst]
      exact scramStep_dead TLIM WLIM _ false temp ih.1

theorem c2_witness :
    ((2 : Nat) < U32_MOD) ∧ ((0 : Nat) ≤ 200)
    ∧ ((scramRunConst 200 2 false 0 2).current_state = ScramFsm.ok
        ∧ (scramRunConst 200 2 false 0 3).current_state = ScramFsm.scram
        ∧ (scramRunConst 200 2 false 0 4).current_state = ScramFsm.dead
        ∧ ∀ k, (scramRunConst 200 2 false 0 (2 + 2 + k)).current_state = ScramFsm.dead
            ∧ (scramRunConst 200 2 false 0 (2 + 2 + k)).power_cut_trigger = true) :=
  ⟨by decide, by decide,
   c2_watchdog_timeout_scram_dead 200 2 0 (by decide) (by decide)⟩

/-- C2 counterexample to the claim as stated: with `WATCHDOG_LIMIT = 2`
and a silent heartbeat, the controller enters `SCRAM` on tick 3, but
`power_cut_trigger` is still deasserted on that tick (it only rises one
tick later, together with the transition to `DEAD`): the power cut is
not asserted on *entering* SCRAM. -/
theorem c2_counterexample :
    (scramRunConst 200 2 false 0 3).current_state = ScramFsm.scram
    ∧ (scramRunConst 200 2 false 0 3).power_cut_trigger = false
    ∧ (scramRunConst 200 2 false 0 4).power_cut_trigger = true := by decide

/-- C7 (amended): a tick whose sampled heartbeat differs from the
previously sampled value resets `watchdog_counter` to 0 on that tick;
and if the pre-tick counter is still strictly below the limit (and the
temperature is at or below the critical limit), the controller stays in
`OK`.  (If the pre-tick counter has already reached the limit, the FSM —
which samples the counter before the reset — still leaves `OK` on that
same tick; see the counterexample.) -/
theorem c7_heartbeat_toggle_resets (TLIM WLIM temp : Nat) (s : ScramState) (hb : Bool)
    (htoggle : hb ≠ s.heartbeat_prev) :
    (scramStep TLIM WLIM s hb temp).watchdog_counter = 0
    ∧ (s.current_state = ScramFsm.ok → s.watchdog_counter < WLIM → temp ≤ TLIM →
        (scramStep TLIM WLIM s hb temp).current_state = ScramFsm.ok) := by
  constructor
  · simp [scramStep, watchdogStep, htoggle]
  · intro hok hc ht
    simp [scramStep, fsmStep, hok, Nat.not_lt.mpr ht, Nat.not_le.mpr hc]

theorem c7_witness :
    ((true ≠ scramReset.heartbeat_prev)
    ∧ ((scramStep 200 5 scramReset true 0).watchdog_counter = 0
        ∧ (scramReset.current_state = ScramFsm.ok →
            scramReset.watchdog_counter < 5 → (0 : Nat) ≤ 200 →
            (scramStep 200 5 scramReset true 0).current_state = ScramFsm.ok))) :=
  ⟨by decide, c7_heartbeat_toggle_resets 200 5 0 scramReset true (by decide)⟩

/-- C7 counterexample to the claim as stated: with `WATCHDOG_LIMIT = 1`,
after one silent tick the counter sits at the limit while the state is
still `OK`; on the next tick the heartbeat *does* toggle — the counter
resets to 0 — yet the FSM, sampling the pre-reset counter, leaves `OK`
for `SCRAM` on that very tick (temperature is 0, so only the watchdog
condition can fire). -/
theorem c7_counterexample :
    (scramRunConst 200 1 false 0 1).current_state = ScramFsm.ok
    ∧ (scramRunConst 200 1 false 0 1).heartbeat_prev = false
    ∧ (scramStep 200 1 (scramRunConst 200 1 false 0 1) true 0).watchdog_counter = 0
    ∧ (scramStep 200 1 (scramRunConst 200 1 false 0 1) true 0).current_state
        = ScramFsm.scram := by decide

/-- One tick never lifts `watchdog_counter` above `WATCHDOG_LIMIT`. -/
theorem watchdog_counter_step_le (TLIM WLIM : Nat) (s : ScramState) (hb : Bool)
    (temp : Nat) (hW : WLIM < U32_MOD) (hs : s.watchdog_counter ≤ WLIM) :
    (scramStep TLIM WLIM s hb temp).watchdog_counter ≤ WLIM := by
  show (watchdogStep WLIM s hb).1 ≤ WLIM
  simp only [watchdogStep]
  by_cases h1 : hb ≠ s.heartbeat_prev
  · simp [h1]
  · simp only [if_neg h1]
    by_cases h2 : s.watchdog_counter < WLIM
    · simp only [if_pos h2]
      rw [Nat.mod_eq_of_lt (by omega)]
      omega
    · simp only [if_neg h2]
      exact hs

/-- C10: in every state reachable from reset, under any input sequence,
`watchdog_counter ≤ WATCHDOG_LIMIT`: the counter increments only while
strictly below the limit, so it saturates there and never wraps. -/
theorem c10_watchdog_counter_saturates (TLIM WLIM : Nat)
    (inputs : List (Bool × Nat)) (hW : WLIM < U32_MOD) :
    (scramRun TLIM WLIM scramReset inputs).watchdog_counter ≤ WLIM := by
  suffices h : ∀ s : ScramState, s.watchdog_counter ≤ WLIM →
      (scramRun TLIM WLIM s inputs).watchdog_counter ≤ WLIM by
    exact h scramReset (by simp [scramReset])
  induction inputs with
  | nil => intro s hs; simpa [scramRun] using hs
  | cons input rest ih =>
      intro s hs
      simp only [scramRun]
      exact ih _ (watchdog_counter_step_le TLIM WLIM s input.1 input.2 hW hs)

/-! ## Kernel-driver register-access theorems -/

/-- C3: evaluated at an asserted interrupt (`irq_status = 1`), the
interrupt handler writes value 0x01 to offset 0x08 — the ERROR register,
read-only under the hardware contract — and not to CONTROL (0x00): the
driver's `REG_IRQ_ACK` name aliases the contract's ERROR register. -/
theorem c3_irq_handler_writes_error_reg :
    hocs_irq_handler_ops 1
      = [RegOp.readReg REG_ERROR, RegOp.writeReg REG_ERROR 0x01]
    ∧ RegOp.writeReg REG_ERROR 0x01 ∈ hocs_irq_handler_ops 1
    ∧ REG_ERROR ∈ readOnlyRegs
    ∧ REG_ERROR ≠ REG_CONTROL := by decide

/-- C4: `hocs_driver_init` touches no device register on any path — in
particular it never reads VERSION — and when its four setup calls
succeed it returns 0 (success) irrespective of the hardware's version
value, never failing with a version mismatch. -/
theorem c4_init_has_no_version_gate :
    (∀ e : InitEnv, hocs_driver_init_regops e = [])
    ∧ (∀ e : InitEnv,
        RegOp.readReg REG_VERSION ∉ hocs_driver_init_regops e)
    ∧ hocs_driver_init ⟨true, true, true, true⟩ = 0 :=
  ⟨fun _ => rfl, fun e => by simp [hocs_driver_init_regops], rfl⟩

/-- C9: `hocs_write` copies exactly the caller-supplied `len` bytes into
the 4-byte `cmd_reg`, writes the copied word to CONTROL only, and
returns `len`; the copy stays within its destination precisely when
`len ≤ 4`, so every request with `len > 4` overruns the 4-byte
destination. -/
theorem c9_write_copies_len_bytes (len cmd : Nat) :
    (hocs_write_model len cmd).bytes_copied = len
    ∧ (hocs_write_model len cmd).ret = len
    ∧ (hocs_write_model len cmd).reg_ops = [RegOp.writeReg REG_CONTROL cmd]
    ∧ ((hocs_write_model len cmd).bytes_copied
        ≤ (hocs_write_model len cmd).dest_capacity ↔ len ≤ 4)
    ∧ (4 < len → (hocs_write_model len cmd).dest_capacity
        < (hocs_write_model len cmd).bytes_copied) :=
  ⟨rfl, rfl, rfl, Iff.rfl, fun h => h⟩

theorem c9_witness :
    (hocs_write_model 5 7).bytes_copied = 5
    ∧ (hocs_write_model 5 7).ret = 5
    ∧ (hocs_write_model 5 7).reg_ops = [RegOp.writeReg REG_CONTROL 7]
    ∧ ((hocs_write_model 5 7).bytes_copied
        ≤ (hocs_write_model 5 7).dest_capacity ↔ (5 : Nat) ≤ 4)
    ∧ ((4 : Nat) < 5 → (hocs_write_model 5 7).dest_capacity
        < (hocs_write_model 5 7).bytes_copied) :=
  c9_write_copies_len_bytes 5 7

/-! ## Packet-codec theorems -/

theorem crc32_round_lt (c : Nat) (h : c < U32_MOD) : crc32_round c < U32_MOD := by
  have h32 : c < 2 ^ 32 := h
  have hhalf : c / 2 < 2 ^ 32 := by omega
  unfold crc32_round U32_MOD
  split
  · exact Nat.xor_lt_two_pow hhalf (by norm_num)
  · exact hhalf

theorem crc32_rounds_lt (n c : Nat) (h : c < U32_MOD) : crc32_rounds n c < U32_MOD := by
  induction n generalizing c with
  | zero => simpa [crc32_rounds] using h
  | succ n ih => exact ih _ (crc32_round_lt c h)

/-- The CRC-32 of any byte sequence fits in 32 bits, so it round-trips
through its little-endian footer encoding. -/
theorem crc32_lt (data : List Nat) : crc32 data < U32_MOD := by
  have hfold : ∀ (l : List Nat) (acc : Nat), acc < U32_MOD →
      l.foldl (fun c b => crc32_rounds 8 (c ^^^ b % 256)) acc < U32_MOD := by
    intro l
    induction l with
    | nil => intro acc h; simpa using h
    | cons b rest ih =>
        intro acc h
        simp only [List.foldl_cons]
        exact ih _ (crc32_rounds_lt 8 _
          (Nat.xor_lt_two_pow h (by simp [U32_MOD]; omega)))
  exact Nat.xor_lt_two_pow (hfold _ _ (by simp [U32_MOD])) (by simp [U32_MOD])

theorem readLE32_le32_append (n : Nat) (rest : List Nat) (h : n < U32_MOD) :
    readLE32 (le32 n ++ rest) = n := by
  show n % 256 + 256 * (n / 256 % 256) + 65536 * (n / 65536 % 256)
      + 16777216 * (n / 16777216 % 256) = n
  simp only [U32_MOD] at h
  omega

theorem readLE32_le32 (n : Nat) (h : n < U32_MOD) : readLE32 (le32 n) = n := by
  show n % 256 + 256 * (n / 256 % 256) + 65536 * (n / 65536 % 256)
      + 16777216 * (n / 16777216 % 256) = n
  simp only [U32_MOD] at h
  omega

/-- C6: decoding an uncorrupted encoded packet recovers exactly the
original opcode, tile_id and payload, for any `u32` opcode and tile_id
and any payload of at most 4 MiB. -/
theorem c6_codec_round_trip (opcode tile_id : Nat) (payload : List Nat)
    (hop : opcode < U32_MOD) (htile : tile_id < U32_MOD)
    (hlen : payload.length ≤ MAX_PAYLOAD) :
    decode (encode opcode tile_id payload)
      = DecodeResult.ok opcode tile_id payload := by
  have hlen32 : payload.length < U32_MOD := by
    simp only [MAX_PAYLOAD] at hlen; simp only [U32_MOD]; omega
  have hlenbs : (encode opcode tile_id payload).length = 20 + payload.length := by
    simp [encode, le32]
    omega
  have hdrop4 : (encode opcode tile_id payload).drop 4
      = le32 opcode ++ le32 payload.length ++ le32 tile_id ++ payload
        ++ le32 (crc32 (le32 MAGIC_VAL ++ le32 opcode ++ le32 payload.length
            ++ le32 tile_id ++ payload)) := rfl
  have hdrop8 : (encode opcode tile_id payload).drop 8
      = le32 payload.length ++ le32 tile_id ++ payload
        ++ le32 (crc32 (le32 MAGIC_VAL ++ le32 opcode ++ le32 payload.length
            ++ le32 tile_id ++ payload)) := rfl
  have hdrop12 : (encode opcode tile_id payload).drop 12
      = le32 tile_id ++ payload
        ++ le32 (crc32 (le32 MAGIC_VAL ++ le32 opcode ++ le32 payload.length
            ++ le32 tile_id ++ payload)) := rfl
  have hdrop16 : (encode opcode tile_id payload).drop 16
      = payload
        ++ le32 (crc32 (le32 MAGIC_VAL ++ le32 opcode ++ le32 payload.length
            ++ le32 tile_id ++ payload)) := rfl
  have hplen : readLE32 ((encode opcode tile_id payload).drop 8) = payload.length := by
    rw [hdrop8]
    rw [List.append_assoc, List.append_assoc]
    exact readLE32_le32_append _ _ hlen32
  have hmagic : readLE32 (encode opcode tile_id payload) = MAGIC_VAL := by
    show readLE32 (le32 MAGIC_VAL ++ (le32 opcode ++ le32 payload.length ++ le32 tile_id
        ++ payload
        ++ le32 (crc32 (le32 MAGIC_VAL ++ le32 opcode ++ le32 payload.length
            ++ le32 tile_id ++ payload)))) = MAGIC_VAL
    exact readLE32_le32_append _ _ (by decide)
  have htake : (encode opcode tile_id payload).take (16 + payload.length)
      = le32 MAGIC_VAL ++ le32 opcode ++ le32 payload.length ++ le32 tile_id ++ payload := by
    have h1 : encode opcode tile_id payload
        = (le32 MAGIC_VAL ++ le32 opcode ++ le32 payload.length ++ le32 tile_id ++ payload)
          ++ le32 (crc32 (le32 MAGIC_VAL ++ le32 opcode ++ le32 payload.length
              ++ le32 tile_id ++ payload)) := by
      simp [encode, List.append_assoc]
    have h2 : (le32 MAGIC_VAL ++ le32 opcode ++ le32 payload.length ++ le32 tile_id
        ++ payload).length = 16 + payload.length := by
      simp [le32]; omega
    rw [h1, ← h2, List.take_left]
  have hdropfoot : (encode opcode tile_id payload).drop (16 + payload.length)
      = le32 (crc32 (le32 MAGIC_VAL ++ le32 opcode ++ le32 payload.length
          ++ le32 tile_id ++ payload)) := by
    rw [← List.drop_drop, hdrop16]
    exact List.drop_left payload _
  have hop4 : readLE32 ((encode opcode tile_id payload).drop 4) = opcode := by
    rw [hdrop4, List.append_assoc, List.append_assoc, List.append_assoc]
    exact readLE32_le32_append _ _ hop
  have ht12 : readLE32 ((encode opcode tile_id payload).drop 12) = tile_id := by
    rw [hdrop12, List.append_assoc]
    exact readLE32_le32_append _ _ htile
  have hfoot : readLE32 ((encode opcode tile_id payload).drop (16 + payload.length))
      = crc32 (le32 MAGIC_VAL ++ le32 opcode ++ le32 payload.length
          ++ le32 tile_id ++ payload) := by
    rw [hdropfoot]
    exact readLE32_le32 _ (crc32_lt _)
  simp only [decode]
  rw [if_neg (by rw [hlenbs]; omega)]
  rw [if_neg (by rw [hmagic]; simp)]
  rw [hplen]
  rw [if_neg (by rw [hlenbs]; omega)]
  rw [if_neg (by rw [htake, hfoot]; simp)]
  rw [hop4, ht12, hdrop16, List.take_left]

theorem c6_witness :
    ((1 : Nat) < U32_MOD) ∧ ((7 : Nat) < U32_MOD)
    ∧ (([42, 17] : List Nat).length ≤ MAX_PAYLOAD)
    ∧ decode (encode 1 7 [42, 17]) = DecodeResult.ok 1 7 [42, 17] :=
  ⟨by decide, by decide, by decide,
   c6_codec_round_trip 1 7 [42, 17] (by decide) (by decide) (by decide)⟩

theorem c10_witness :
    ((3 : Nat) < U32_MOD)
    ∧ (scramRun 200 3 scramReset
          [(false, 0), (false, 0), (false, 0), (false, 0), (true, 250)]).watchdog_counter
        ≤ 3 :=
  ⟨by decide,
   c10_watchdog_counter_saturates 200 3
     [(false, 0), (false, 0), (false, 0), (false, 0), (true, 250)] (by decide)⟩
example : (scramRunConst 200 2 false 0 3).current_state = ScramFsm.scram := by decide
example : (scramRunConst 200 2 false 0 3).power_cut_trigger = false := by decide
example : (scramRunConst 200 2 false 0 4).current_state = ScramFsm.dead := by decide
example : (scramRunConst 200 2 false 0 4).power_cut_trigger = true := by decide
example : (allocList ⟨4194304, 0⟩ [100, 64]).2 = [some 0, some 128] := by decide
